import Mathlib

/-!
Verification development for the animal expert-system shell (`src/main.py`).

The embedding models, directly from the source:
* `Truth` — the three-valued truth enum.
* `parse` — `BoolExpression.__init__`: character-level scan for the lowest
  precedence operator outside parentheses, splitting the string there.
* `evalExpr` — `BoolExpression.evaluate` over a fact table; a missing key
  (Python `KeyError`) is modelled as `none`.
* `ruleEvaluate` — `Rule.evaluate`.
* `onePassAux` / `evalLoop` — `Truthifier.evaluate_rules`, the fixed-point
  loop, with an explicit pass budget (`fuel`); the Python loop has no budget,
  and the development proves the budget `rules.length + 1` is never exhausted.
* `setExternalFact` — the guarded fact assignment performed by
  `Truthifier.solve` (facts are only written while they are UNKNOWN).

Python dictionaries are modelled as association lists (`Facts`) with
insertion-order update semantics (`setFact` updates the first matching key in
place, appending when absent), and fallible operations return `Option` /
`Except`.
-/

/-- `Truth` from `src/main.py`: the three-valued truth enum. -/
inductive Truth where
  | FALSE
  | TRUE
  | UNKNOWN
deriving DecidableEq, Repr

/-- The Boolean expression tree built by `BoolExpression.__init__`.
Each constructor corresponds to one `Operator` tag of the source; a `FACT`
node stores the (stripped) fact-name string verbatim. -/
inductive BoolExpr where
  | FACT (name : String)
  | PAREN (e : BoolExpr)
  | NOT (e : BoolExpr)
  | AND (l r : BoolExpr)
  | OR (l r : BoolExpr)
deriving DecidableEq, Repr

/-- The operator tags the scanner of `BoolExpression.__init__` can record
(`Operator.NOT`, `Operator.AND`, `Operator.OR`; `Operator.NONE` is the
"no operator recorded yet" state, modelled by `Option.none`). -/
inductive ScanOp where
  | bnot
  | band
  | bor
deriving DecidableEq, Repr

/-- `Precedence` values from the source: NOT = 2, AND = 1, OR = 1. -/
def opPrec : ScanOp → Nat
  | .bnot => 2
  | .band => 1
  | .bor => 1

/-- `parse_operator` from the source: map an operator character to its tag and
precedence; any other character yields `(Operator.NONE, Precedence.NONE)`,
modelled as `none` (a precedence-5 candidate never replaces the best). -/
def parseOp (c : Char) : Option (ScanOp × Nat) :=
  if c = '!' then some (.bnot, 2)
  else if c = '&' then some (.band, 1)
  else if c = '|' then some (.bor, 1)
  else none

/-- The running `best_prec` of the scan: `Precedence.NONE = 5` while no
operator has been recorded, otherwise the recorded operator's precedence. -/
def bestPrec : Option (Nat × ScanOp) → Nat
  | none => 5
  | some (_, op) => opPrec op

/-- The scanning loop of `BoolExpression.__init__` (lines 82-98): walk the
characters tracking the open-parenthesis depth; at depth 0 record an operator
whenever its precedence is strictly lower than the best so far (so the
leftmost operator of the lowest precedence is kept); a `)` at depth 0 fails
with the offending absolute position (`Extra close paren`). Returns the
recorded best operator (with its absolute index) and the final depth. -/
def scanBest : List Char → Nat → Nat → Option (Nat × ScanOp) →
    Except Nat (Option (Nat × ScanOp) × Nat)
  | [], _, depth, best => .ok (best, depth)
  | c :: cs, i, depth, best =>
    if c = '(' then
      scanBest cs (i + 1) (depth + 1) best
    else if c = ')' then
      match depth with
      | 0 => .error i
      | d + 1 => scanBest cs (i + 1) d best
    else if depth = 0 then
      match parseOp c with
      | some (op, p) =>
        if p < bestPrec best then scanBest cs (i + 1) depth (some (i, op))
        else scanBest cs (i + 1) depth best
      | none => scanBest cs (i + 1) depth best
    else
      scanBest cs (i + 1) depth best

/-- Python `str.strip()` on a character list. -/
def trimChars (cs : List Char) : List Char :=
  ((cs.dropWhile Char.isWhitespace).reverse.dropWhile Char.isWhitespace).reverse

/-- The ways `BoolExpression.__init__` can fail:
* `extraClose i` — `Extra close paren ")" ... at position i`;
* `unclosed` — `Unclosed open paren "("`;
* `empty` — `expression[0]` on an empty expression (Python `IndexError`);
* `noFuel` — the recursion budget of the embedding ran out (the Python
  recursion has no budget; `parse` supplies a budget that is never hit). -/
inductive ParseErr where
  | extraClose (i : Nat)
  | unclosed
  | empty
  | noFuel
deriving DecidableEq, Repr

/-- `BoolExpression.__init__` (lines 64-137) on an already-stripped character
list. Scan for the leftmost lowest-precedence operator outside parentheses;
fail on unbalanced parentheses; with no operator, either strip one layer of
parentheses (a `PAREN` node) or build a `FACT` leaf from the text; with an
operator, split the string there (`NOT` keeps `expression[1:]`, `AND`/`OR`
split into `expression[:i]` and `expression[i+1:]`) and recurse, stripping at
every recursive entry exactly as the constructor does. -/
def parseCoreF : Nat → List Char → Except ParseErr BoolExpr
  | 0, _ => .error .noFuel
  | fuel + 1, e =>
    match scanBest e 0 0 none with
    | .error p => .error (.extraClose p)
    | .ok (best, depth) =>
      if depth > 0 then .error .unclosed
      else
        match best with
        | none =>
          match e with
          | [] => .error .empty
          | '(' :: _ =>
            match parseCoreF fuel (trimChars (((trimChars e).drop 1).dropLast)) with
            | .ok inner => .ok (.PAREN inner)
            | .error err => .error err
          | _ => .ok (.FACT (String.mk e))
        | some (j, op) =>
          match op with
          | .bnot =>
            match parseCoreF fuel (trimChars (e.drop 1)) with
            | .ok inner => .ok (.NOT inner)
            | .error err => .error err
          | .band =>
            match parseCoreF fuel (trimChars (e.take j)) with
            | .error err => .error err
            | .ok l =>
              match parseCoreF fuel (trimChars (e.drop (j + 1))) with
              | .error err => .error err
              | .ok r => .ok (.AND l r)
          | .bor =>
            match parseCoreF fuel (trimChars (e.take j)) with
            | .error err => .error err
            | .ok l =>
              match parseCoreF fuel (trimChars (e.drop (j + 1))) with
              | .error err => .error err
              | .ok r => .ok (.OR l r)

/-- `BoolExpression(expression)`: strip the input and parse it. Every
recursive call of the source strictly shrinks the string, so a budget of
`length + 1` is never exhausted. -/
def parse (s : String) : Except ParseErr BoolExpr :=
  parseCoreF (s.toList.length + 1) (trimChars s.toList)

/-- The fact table of the `Truthifier` (a Python dict from fact name to
`Truth`), modelled as an association list in insertion order. -/
def Facts : Type := List (String × Truth)

instance : DecidableEq Facts := by
  unfold Facts
  infer_instance

instance {ε α : Type} [DecidableEq ε] [DecidableEq α] :
    DecidableEq (Except ε α) := fun a b =>
  match a, b with
  | .error e1, .error e2 =>
    if h : e1 = e2 then .isTrue (by rw [h]) else .isFalse (by simp [h])
  | .error _, .ok _ => .isFalse (by simp)
  | .ok _, .error _ => .isFalse (by simp)
  | .ok x, .ok y =>
    if h : x = y then .isTrue (by rw [h]) else .isFalse (by simp [h])

/-- Python `facts[name]` read: the value at the first matching key, `none`
when the key is absent (a `KeyError` in the source). -/
def lookupFact : Facts → String → Option Truth
  | [], _ => none
  | (k, w) :: rest, n => if k = n then some w else lookupFact rest n

/-- Python `facts[name] = v`: overwrite the value at the first matching key
in place (dicts keep insertion order), appending a new entry when absent. -/
def setFact : Facts → String → Truth → Facts
  | [], n, v => [(n, v)]
  | (k, w) :: rest, n, v =>
    if k = n then (k, v) :: rest else (k, w) :: setFact rest n v

/-- `BoolExpression.evaluate` (lines 154-199): three-valued evaluation against
the fact table. A `FACT` leaf reads `facts[name]` (so a missing key is `none`,
the `KeyError` of the source, not `UNKNOWN`); `AND`/`OR` evaluate both
operands (no short-circuiting) and combine them with the Kleene tables written
out in the source; `NOT` flips `TRUE`/`FALSE`; `PAREN` is transparent. -/
def evalExpr : BoolExpr → Facts → Option Truth
  | .FACT n, facts => lookupFact facts n
  | .PAREN e, facts => evalExpr e facts
  | .NOT e, facts =>
    match evalExpr e facts with
    | none => none
    | some .TRUE => some .FALSE
    | some .FALSE => some .TRUE
    | some .UNKNOWN => some .UNKNOWN
  | .AND l r, facts =>
    match evalExpr l facts, evalExpr r facts with
    | some t1, some t2 =>
      if t1 = .TRUE ∧ t2 = .TRUE then some .TRUE
      else if t1 = .FALSE ∨ t2 = .FALSE then some .FALSE
      else some .UNKNOWN
    | _, _ => none
  | .OR l r, facts =>
    match evalExpr l facts, evalExpr r facts with
    | some t1, some t2 =>
      if t1 = .TRUE ∨ t2 = .TRUE then some .TRUE
      else if t1 = .FALSE ∧ t2 = .FALSE then some .FALSE
      else some .UNKNOWN
    | _, _ => none

/-- Spec-side strong Kleene conjunction table (§4.2 of the spec): `TRUE` iff
both `TRUE`; `FALSE` iff at least one `FALSE`; otherwise `UNKNOWN`. Stated
from the spec's words, to be compared with `evalExpr`. -/
def kleeneAnd : Truth → Truth → Truth
  | .TRUE, .TRUE => .TRUE
  | .FALSE, _ => .FALSE
  | _, .FALSE => .FALSE
  | _, _ => .UNKNOWN

/-- Spec-side strong Kleene disjunction table: `TRUE` iff at least one `TRUE`;
`FALSE` iff both `FALSE`; otherwise `UNKNOWN`. -/
def kleeneOr : Truth → Truth → Truth
  | .TRUE, _ => .TRUE
  | _, .TRUE => .TRUE
  | .FALSE, .FALSE => .FALSE
  | _, _ => .UNKNOWN

/-- Spec-side Kleene negation table: swap `TRUE` and `FALSE`, keep
`UNKNOWN`. -/
def kleeneNeg : Truth → Truth
  | .TRUE => .FALSE
  | .FALSE => .TRUE
  | .UNKNOWN => .UNKNOWN

/-- The set of fact names an expression reads, as a list in left-to-right
order (the source's `BoolExpression.list_facts` returns a Python `set`; only
membership in it is ever relied on by the engine's fact registration). -/
def exprFacts : BoolExpr → List String
  | .FACT n => [n]
  | .PAREN e => exprFacts e
  | .NOT e => exprFacts e
  | .AND l r => exprFacts l ++ exprFacts r
  | .OR l r => exprFacts l ++ exprFacts r

/-- A `Rule` (lines 204-220): parsed antecedent, cleaned consequent name, the
negation and goal flags read off the consequent text, and the
`antecedent_truth` field (initialised `UNKNOWN` and never assigned again
anywhere in the source). -/
structure Rule where
  antecedent : BoolExpr
  consequent : String
  is_negated : Bool
  is_goal : Bool
  antecedent_truth : Truth
deriving DecidableEq, Repr

/-- Split a character list at the first occurrence of the substring `->`,
dropping the arrow. -/
def splitFirstArrow : List Char → Option (List Char × List Char)
  | [] => none
  | '-' :: '>' :: rest => some ([], rest)
  | c :: rest =>
    match splitFirstArrow rest with
    | none => none
    | some (a, b) => some (c :: a, b)

/-- Whether a character list contains the substring `->`. -/
def containsArrow : List Char → Bool
  | [] => false
  | '-' :: '>' :: _ => true
  | _ :: rest => containsArrow rest

/-- `Rule.__init__` (lines 213-220): strip the rule string and split it on
`->` (Python unpacks into exactly two parts, so a second arrow is an error);
the consequent text is scanned for the `!` and `$` markers, which are then
removed and the remainder stripped; the antecedent text is parsed with
`BoolExpression`. Any failure yields `none`. -/
def mkRule (rule_string : String) : Option Rule :=
  match splitFirstArrow (trimChars rule_string.toList) with
  | none => none
  | some (a, c) =>
    if containsArrow c then none
    else
      match parseCoreF (a.length + 1) (trimChars a) with
      | .error _ => none
      | .ok ante =>
        some
          { antecedent := ante
            consequent :=
              String.mk (trimChars (c.filter fun ch => ch ≠ '!' ∧ ch ≠ '$'))
            is_negated := c.contains '!'
            is_goal := c.contains '$'
            antecedent_truth := .UNKNOWN }

/-- `Truthifier.load_rules`: build every rule, failing if any rule string is
malformed. -/
def mkRules : List String → Option (List Rule)
  | [] => some []
  | s :: rest =>
    match mkRule s with
    | none => none
    | some r =>
      match mkRules rest with
      | none => none
      | some rs => some (r :: rs)

/-- `Rule.evaluate` (lines 233-260). If the consequent is already resolved,
return it unchanged; if `antecedent_truth` is resolved (never the case — the
field stays `UNKNOWN`), return the consequent's current value; otherwise
evaluate the antecedent, and only when it is `TRUE` write the consequent
(`FALSE` when the rule is negated, else `TRUE`) and return the entry just
written. Every other path leaves the fact table untouched. `none` models the
`KeyError` raised by a missing fact name. The `explain` argument of the
source only prints and never touches the fact table, so it is omitted. -/
def ruleEvaluate (r : Rule) (facts : Facts) : Option (Truth × Facts) :=
  match lookupFact facts r.consequent with
  | none => none
  | some c =>
    if c ≠ .UNKNOWN then some (c, facts)
    else if r.antecedent_truth ≠ .UNKNOWN then some (c, facts)
    else
      match evalExpr r.antecedent facts with
      | none => none
      | some t =>
        if t = .TRUE then
          match lookupFact
              (setFact facts r.consequent
                (if r.is_negated then .FALSE else .TRUE))
              r.consequent with
          | none => none
          | some w =>
            some (w, setFact facts r.consequent
              (if r.is_negated then .FALSE else .TRUE))
        else some (c, facts)

/-- The goal bookkeeping of `Truthifier.evaluate_rules` (lines 409-414): a
rule that resolved to `t` is appended to `goals_reached` when it is a goal,
`t` is `TRUE` and the rule is not already present. -/
def updGoals (g : List Rule) (r : Rule) (t : Truth) : List Rule :=
  if r.is_goal = true ∧ t = .TRUE ∧ r ∉ g then g ++ [r] else g

/-- One pass of `Truthifier.evaluate_rules` over the remaining rules (lines
397-414), threading the fact table, the `goals_reached` list and the
`had_change` flag: each rule whose consequent is `UNKNOWN` is evaluated;
a rule that resolved writes its consequent again (line 403), flags the
change, and is recorded as a goal when applicable. `none` models a
`KeyError`. -/
def onePassAux : List Rule → Facts → List Rule → Bool →
    Option (Facts × List Rule × Bool)
  | [], facts, g, ch => some (facts, g, ch)
  | r :: rest, facts, g, ch =>
    match lookupFact facts r.consequent with
    | none => none
    | some c =>
      if c = .UNKNOWN then
        match ruleEvaluate r facts with
        | none => none
        | some (t, facts1) =>
          if t ≠ .UNKNOWN then
            onePassAux rest (setFact facts1 r.consequent t) (updGoals g r t) true
          else
            onePassAux rest facts1 g ch
      else
        onePassAux rest facts g ch

/-- A full pass of the `while had_change` body, starting with
`had_change = False` (line 394). -/
def onePass (rules : List Rule) (facts : Facts) (g : List Rule) :
    Option (Facts × List Rule × Bool) :=
  onePassAux rules facts g false

/-- How a run of the fixed-point loop can fail in the embedding:
`keyMissing` models a Python `KeyError`; `outOfFuel` means the pass budget
was exhausted (which the development proves never happens with budget
`rules.length + 1`). -/
inductive RunError where
  | keyMissing
  | outOfFuel
deriving DecidableEq, Repr

/-- `Truthifier.evaluate_rules` (lines 389-414): repeat full passes while a
pass changed something, with an explicit pass budget. -/
def evalLoop : Nat → List Rule → Facts → List Rule →
    Except RunError (Facts × List Rule)
  | 0, _, _, _ => .error .outOfFuel
  | fuel + 1, rules, facts, g =>
    match onePass rules facts g with
    | none => .error .keyMissing
    | some (facts1, g1, changed) =>
      if changed then evalLoop fuel rules facts1 g1 else .ok (facts1, g1)

/-- `evaluate_rules` with the pass budget `rules.length + 1` that the
termination argument shows is always sufficient. -/
def runFixedPoint (rules : List Rule) (facts : Facts) (g : List Rule) :
    Except RunError (Facts × List Rule) :=
  evalLoop (rules.length + 1) rules facts g

/-- The fact names of one rule: the antecedent's facts plus the consequent
(`Rule.list_facts`, lines 228-229). -/
def ruleFacts (r : Rule) : List String :=
  exprFacts r.antecedent ++ [r.consequent]

/-- `Truthifier.load_facts` (lines 304-308): register every fact name of
every rule with value `UNKNOWN`. (The source iterates Python sets; only the
resulting key set and values are observable through `lookupFact`.) -/
def loadFacts (rules : List Rule) : Facts :=
  rules.foldl
    (fun facts r => (ruleFacts r).foldl (fun f n => setFact f n .UNKNOWN) facts)
    []

/-- `Truthifier.load_questions` (lines 312-324): every antecedent fact name
that is never a consequent, de-duplicated via the `not in self.questions`
check. The source enumerates each rule's antecedent facts by iterating a
Python `set`, whose order is implementation-defined; this embedding fixes the
left-to-right order of `exprFacts` for that enumeration. -/
def loadQuestions (rules : List Rule) : List String :=
  let consequents := rules.map fun r => r.consequent
  rules.foldl
    (fun qs r =>
      (exprFacts r.antecedent).foldl
        (fun qs n => if n ∉ consequents ∧ n ∉ qs then qs ++ [n] else qs)
        qs)
    []

/-- The external fact assignment performed by `Truthifier.solve` (lines
358-371): a question's entry is written only while it is `UNKNOWN` (the
`if self.facts[question] == Truth.UNKNOWN` guard), so an already-resolved
fact is never overwritten. -/
def setExternalFact (facts : Facts) (name : String) (v : Truth) : Facts :=
  if lookupFact facts name = some .UNKNOWN then setFact facts name v else facts

/-- The operations the REPL loop interleaves on the engine state: supplying
an external fact and running the fixed-point loop. -/
inductive EngineOp where
  | setExternal (name : String) (v : Truth)
  | runRules
deriving DecidableEq, Repr

/-- Apply one engine operation to the state (fact table plus goal log). -/
def applyOp (rules : List Rule) (st : Facts × List Rule) :
    EngineOp → Option (Facts × List Rule)
  | .setExternal n v => some (setExternalFact st.1 n v, st.2)
  | .runRules => (runFixedPoint rules st.1 st.2).toOption

/-- Run a sequence of engine operations, failing if any run fails. -/
def runOps (rules : List Rule) : List EngineOp → Facts × List Rule →
    Option (Facts × List Rule)
  | [], st => some st
  | op :: rest, st =>
    match applyOp rules st op with
    | none => none
    | some st1 => runOps rules rest st1

/-- The number of rules whose consequent entry is currently `UNKNOWN` — the
measure that strictly decreases on every changing pass. -/
def countUnknown (rules : List Rule) (facts : Facts) : Nat :=
  rules.countP fun r => lookupFact facts r.consequent == some Truth.UNKNOWN

/-- Monotone evolution of a fact table: every entry is either unchanged or
has moved from `UNKNOWN` to a resolved value. -/
def factsEvolve (f f1 : Facts) : Prop :=
  ∀ k, lookupFact f1 k = lookupFact f k ∨
    (lookupFact f k = some .UNKNOWN ∧
      ∃ t, t ≠ Truth.UNKNOWN ∧ lookupFact f1 k = some t)

theorem lookupFact_setFact_self (f : Facts) (n : String) (v : Truth) :
    lookupFact (setFact f n v) n = some v := by
  induction f with
  | nil => simp [setFact, lookupFact]
  | cons kv rest ih =>
    obtain ⟨k, w⟩ := kv
    by_cases hk : k = n
    · simp [setFact, lookupFact, hk]
    · simp [setFact, lookupFact, hk, ih]

theorem lookupFact_setFact_ne (f : Facts) (n k : String) (v : Truth)
    (h : k ≠ n) : lookupFact (setFact f n v) k = lookupFact f k := by
  induction f with
  | nil =>
    simp [setFact, lookupFact]
    intro h1
    exact absurd h1.symm h
  | cons kv rest ih =>
    obtain ⟨k1, w⟩ := kv
    by_cases hk : k1 = n
    · subst hk
      have : k1 ≠ k := fun he => h (he ▸ rfl)
      simp [setFact, lookupFact, this]
    · simp [setFact, lookupFact, hk]
      by_cases hkk : k1 = k
      · simp [hkk]
      · simp [hkk, ih]

theorem factsEvolve_refl (f : Facts) : factsEvolve f f := by
  intro k
  exact Or.inl rfl

theorem factsEvolve_trans {f1 f2 f3 : Facts}
    (h12 : factsEvolve f1 f2) (h23 : factsEvolve f2 f3) :
    factsEvolve f1 f3 := by
  intro k
  rcases h23 k with h23k | ⟨h2u, t3, ht3, h3⟩
  · rcases h12 k with h12k | ⟨h1u, t2, ht2, h2⟩
    · exact Or.inl (h23k.trans h12k)
    · exact Or.inr ⟨h1u, t2, ht2, h23k.trans h2⟩
  · rcases h12 k with h12k | ⟨h1u, t2, ht2, h2⟩
    · exact Or.inr ⟨h12k ▸ h2u, t3, ht3, h3⟩
    · rw [h2] at h2u
      exact absurd (Option.some_injective _ h2u) ht2

theorem factsEvolve_setFact_unknown {f : Facts} {n : String} (v : Truth)
    (h : lookupFact f n = some .UNKNOWN) :
    factsEvolve f (setFact f n v) := by
  intro k
  by_cases hk : k = n
  · subst hk
    by_cases hv : v = Truth.UNKNOWN
    · subst hv
      exact Or.inl ((lookupFact_setFact_self f k Truth.UNKNOWN).trans h.symm)
    · exact Or.inr ⟨h, v, hv, lookupFact_setFact_self f k v⟩
  · exact Or.inl (lookupFact_setFact_ne f n k v hk)

theorem factsEvolve_setFact_same {f : Facts} {n : String} {v : Truth}
    (h : lookupFact f n = some v) :
    factsEvolve f (setFact f n v) := by
  intro k
  by_cases hk : k = n
  · subst hk
    exact Or.inl ((lookupFact_setFact_self f k v).trans h.symm)
  · exact Or.inl (lookupFact_setFact_ne f n k v hk)

theorem ruleEvaluate_cases {r : Rule} {f : Facts} {t : Truth} {f1 : Facts}
    (h : ruleEvaluate r f = some (t, f1)) :
    (lookupFact f r.consequent = some t ∧ t ≠ Truth.UNKNOWN ∧ f1 = f) ∨
    (lookupFact f r.consequent = some .UNKNOWN ∧ t = Truth.UNKNOWN ∧ f1 = f ∧
      (r.antecedent_truth ≠ Truth.UNKNOWN ∨
        ∃ u, evalExpr r.antecedent f = some u ∧ u ≠ Truth.TRUE)) ∨
    (lookupFact f r.consequent = some .UNKNOWN ∧
      r.antecedent_truth = Truth.UNKNOWN ∧
      evalExpr r.antecedent f = some .TRUE ∧
      t = (if r.is_negated then Truth.FALSE else Truth.TRUE) ∧
      f1 = setFact f r.consequent t) := by
  unfold ruleEvaluate at h
  split at h
  · exact absurd h (by simp)
  rename_i c hc
  split at h
  · rename_i h1
    simp only [Option.some.injEq, Prod.mk.injEq] at h
    obtain ⟨ht, hf⟩ := h
    exact Or.inl ⟨ht ▸ hc, ht ▸ h1, hf.symm⟩
  rename_i h1
  push_neg at h1
  subst h1
  split at h
  · rename_i h2
    simp only [Option.some.injEq, Prod.mk.injEq] at h
    obtain ⟨ht, hf⟩ := h
    exact Or.inr (Or.inl ⟨hc, ht.symm, hf.symm, Or.inl h2⟩)
  rename_i h2
  push_neg at h2
  split at h
  · exact absurd h (by simp)
  rename_i u he
  split at h
  · rename_i h3
    subst h3
    split at h
    · rename_i hnone
      rw [lookupFact_setFact_self] at hnone
      exact absurd hnone (by simp)
    rename_i w hw
    rw [lookupFact_setFact_self] at hw
    simp only [Option.some.injEq] at hw
    simp only [Option.some.injEq, Prod.mk.injEq] at h
    obtain ⟨ht, hf⟩ := h
    refine Or.inr (Or.inr ⟨hc, h2, he, ?_, ?_⟩)
    · rw [← ht, ← hw]
    · rw [← hf, hw, ht]
  · rename_i h3
    simp only [Option.some.injEq, Prod.mk.injEq] at h
    obtain ⟨ht, hf⟩ := h
    exact Or.inr (Or.inl ⟨hc, ht.symm, hf.symm, Or.inr ⟨u, he, h3⟩⟩)

theorem ruleEvaluate_post {r : Rule} {f : Facts} {t : Truth} {f1 : Facts}
    (h : ruleEvaluate r f = some (t, f1)) :
    lookupFact f1 r.consequent = some t := by
  rcases ruleEvaluate_cases h with ⟨hl, _, hf⟩ | ⟨hl, ht, hf, _⟩ | ⟨_, _, _, _, hf⟩
  · rw [hf, hl]
  · rw [hf, hl, ht]
  · rw [hf, lookupFact_setFact_self]

theorem ruleEvaluate_evolve {r : Rule} {f : Facts} {t : Truth} {f1 : Facts}
    (h : ruleEvaluate r f = some (t, f1)) : factsEvolve f f1 := by
  rcases ruleEvaluate_cases h with ⟨_, _, hf⟩ | ⟨_, _, hf, _⟩ | ⟨hl, _, _, _, hf⟩
  · exact hf ▸ factsEvolve_refl f
  · exact hf ▸ factsEvolve_refl f
  · exact hf ▸ factsEvolve_setFact_unknown t hl

theorem ruleEvaluate_unknown_unchanged {r : Rule} {f : Facts} {f1 : Facts}
    (h : ruleEvaluate r f = some (.UNKNOWN, f1)) : f1 = f := by
  rcases ruleEvaluate_cases h with ⟨_, ht, _⟩ | ⟨_, _, hf, _⟩ | ⟨_, _, _, ht, _⟩
  · exact absurd rfl ht
  · exact hf
  · rcases hneg : r.is_negated with _ | _ <;> rw [hneg] at ht <;> exact absurd ht (by simp)

theorem ruleEvaluate_true_not_negated {r : Rule} {f : Facts} {f1 : Facts}
    (h : ruleEvaluate r f = some (.TRUE, f1))
    (hu : lookupFact f r.consequent = some .UNKNOWN) :
    r.is_negated = false := by
  rcases ruleEvaluate_cases h with ⟨hl, _, _⟩ | ⟨_, ht, _, _⟩ | ⟨_, _, _, ht, _⟩
  · rw [hu] at hl
    exact absurd (Option.some_injective _ hl) (by simp)
  · exact absurd ht (by simp)
  · rcases hneg : r.is_negated with _ | _
    · rfl
    · rw [hneg] at ht
      exact absurd ht (by simp)

theorem mem_updGoals {g : List Rule} {r r1 : Rule} {t : Truth}
    (h : r1 ∈ updGoals g r t) :
    r1 ∈ g ∨ (r1 = r ∧ t = Truth.TRUE) := by
  unfold updGoals at h
  split at h
  · rename_i hcond
    rcases List.mem_append.mp h with hm | hm
    · exact Or.inl hm
    · exact Or.inr ⟨List.mem_singleton.mp hm, hcond.2.1⟩
  · exact Or.inl h

theorem onePassAux_evolve :
    ∀ (rules : List Rule) (f : Facts) (g : List Rule) (ch : Bool)
      (f1 : Facts) (g1 : List Rule) (ch1 : Bool),
      onePassAux rules f g ch = some (f1, g1, ch1) → factsEvolve f f1 := by
  intro rules
  induction rules with
  | nil =>
    intro f g ch f1 g1 ch1 h
    simp only [onePassAux, Option.some.injEq, Prod.mk.injEq] at h
    exact h.1 ▸ factsEvolve_refl f
  | cons r rest ih =>
    intro f g ch f1 g1 ch1 h
    unfold onePassAux at h
    split at h
    · exact absurd h (by simp)
    rename_i c hc
    split at h
    · split at h
      · exact absurd h (by simp)
      rename_i t fr hre
      split at h
      · have h1 : factsEvolve f fr := ruleEvaluate_evolve hre
        have h2 : factsEvolve fr (setFact fr r.consequent t) :=
          factsEvolve_setFact_same (ruleEvaluate_post hre)
        exact factsEvolve_trans (factsEvolve_trans h1 h2)
          (ih _ _ _ _ _ _ h)
      · exact factsEvolve_trans (ruleEvaluate_evolve hre) (ih _ _ _ _ _ _ h)
    · exact ih _ _ _ _ _ _ h

theorem onePassAux_goals :
    ∀ (rules : List Rule) (f : Facts) (g : List Rule) (ch : Bool)
      (f1 : Facts) (g1 : List Rule) (ch1 : Bool),
      onePassAux rules f g ch = some (f1, g1, ch1) →
      ∀ r1 ∈ g1, r1 ∈ g ∨ r1.is_negated = false := by
  intro rules
  induction rules with
  | nil =>
    intro f g ch f1 g1 ch1 h r1 hr1
    simp only [onePassAux, Option.some.injEq, Prod.mk.injEq] at h
    exact Or.inl (h.2.1 ▸ hr1)
  | cons r rest ih =>
    intro f g ch f1 g1 ch1 h r1 hr1
    unfold onePassAux at h
    split at h
    · exact absurd h (by simp)
    rename_i c hc
    split at h
    · rename_i hcu
      split at h
      · exact absurd h (by simp)
      rename_i t fr hre
      split at h
      · rename_i ht
        rcases ih _ _ _ _ _ _ h r1 hr1 with hm | hneg
        · rcases mem_updGoals hm with hm1 | ⟨hr, htt⟩
          · exact Or.inl hm1
          · subst hr
            subst htt
            exact Or.inr
              (ruleEvaluate_true_not_negated hre (hcu ▸ hc))
        · exact Or.inr hneg
      · rcases ih _ _ _ _ _ _ h r1 hr1 with hm | hneg
        · exact Or.inl hm
        · exact Or.inr hneg
    · rcases ih _ _ _ _ _ _ h r1 hr1 with hm | hneg
      · exact Or.inl hm
      · exact Or.inr hneg

theorem onePassAux_progress :
    ∀ (rules : List Rule) (f : Facts) (g : List Rule)
      (f1 : Facts) (g1 : List Rule),
      onePassAux rules f g false = some (f1, g1, true) →
      ∃ r0, r0 ∈ rules ∧ lookupFact f r0.consequent = some .UNKNOWN ∧
        ∃ t, t ≠ Truth.UNKNOWN ∧ lookupFact f1 r0.consequent = some t := by
  intro rules
  induction rules with
  | nil =>
    intro f g f1 g1 h
    simp only [onePassAux, Option.some.injEq, Prod.mk.injEq] at h
    exact absurd h.2.2 (by simp)
  | cons r rest ih =>
    intro f g f1 g1 h
    unfold onePassAux at h
    split at h
    · exact absurd h (by simp)
    rename_i c hc
    split at h
    · rename_i hcu
      subst hcu
      split at h
      · exact absurd h (by simp)
      rename_i t fr hre
      split at h
      · rename_i ht
        refine ⟨r, List.mem_cons_self r rest, hc, ?_⟩
        have hpost : lookupFact fr r.consequent = some t := ruleEvaluate_post hre
        have hset : lookupFact (setFact fr r.consequent t) r.consequent = some t :=
          lookupFact_setFact_self fr r.consequent t
        have hev : factsEvolve (setFact fr r.consequent t) f1 :=
          onePassAux_evolve _ _ _ _ _ _ _ h
        rcases hev r.consequent with hsame | ⟨hu, t1, ht1, hl1⟩
        · exact ⟨t, ht, hsame.trans hset⟩
        · exact ⟨t1, ht1, hl1⟩
      · rename_i ht
        push_neg at ht
        subst ht
        have hfr : fr = f := ruleEvaluate_unknown_unchanged hre
        subst hfr
        obtain ⟨r0, hr0, hu, t1, ht1, hl1⟩ := ih _ _ _ _ h
        exact ⟨r0, List.mem_cons_of_mem r hr0, hu, t1, ht1, hl1⟩
    · obtain ⟨r0, hr0, hu, t1, ht1, hl1⟩ := ih _ _ _ _ h
      exact ⟨r0, List.mem_cons_of_mem r hr0, hu, t1, ht1, hl1⟩

theorem countP_lt_of_pointwise {α : Type} (l : List α) (p q : α → Bool)
    (hpq : ∀ a ∈ l, p a = true → q a = true) (a0 : α) (ha0 : a0 ∈ l)
    (hq : q a0 = true) (hp : p a0 = false) :
    l.countP p < l.countP q := by
  induction l with
  | nil => exact absurd ha0 (List.not_mem_nil a0)
  | cons b l ih =>
    rcases List.mem_cons.mp ha0 with hb | hmem
    · have hpb : p b = false := hb ▸ hp
      have hqb : q b = true := hb ▸ hq
      have hle : l.countP p ≤ l.countP q :=
        List.countP_mono_left fun a ha => hpq a (List.mem_cons_of_mem b ha)
      rw [List.countP_cons, List.countP_cons]
      simp [hpb, hqb]
      omega
    · have hlt : l.countP p < l.countP q :=
        ih (fun a ha => hpq a (List.mem_cons_of_mem b ha)) hmem
      rw [List.countP_cons, List.countP_cons]
      by_cases hpb : p b = true
      · rw [if_pos hpb, if_pos (hpq b (List.mem_cons_self b l) hpb)]
        omega
      · rw [if_neg hpb]
        split <;> omega

theorem factsEvolve_unknown_back {f f1 : Facts} (h : factsEvolve f f1)
    (k : String) (hk : lookupFact f1 k = some .UNKNOWN) :
    lookupFact f k = some .UNKNOWN := by
  rcases h k with hsame | ⟨hu, t1, ht1, hl1⟩
  · exact hsame ▸ hk
  · rw [hl1] at hk
    exact absurd (Option.some_injective _ hk) ht1

theorem onePass_decrease {rules : List Rule} {f : Facts} {g : List Rule}
    {f1 : Facts} {g1 : List Rule}
    (h : onePass rules f g = some (f1, g1, true)) :
    countUnknown rules f1 < countUnknown rules f := by
  obtain ⟨r0, hr0, hu, t1, ht1, hl1⟩ := onePassAux_progress _ _ _ _ _ h
  have hev : factsEvolve f f1 := onePassAux_evolve _ _ _ _ _ _ _ h
  unfold countUnknown
  refine countP_lt_of_pointwise rules _ _ ?_ r0 hr0 ?_ ?_
  · intro a _ hpa
    rw [beq_iff_eq] at hpa ⊢
    exact factsEvolve_unknown_back hev a.consequent hpa
  · rw [beq_iff_eq]
    exact hu
  · rw [hl1]
    rcases t1 with _ | _ | _
    · rfl
    · rfl
    · exact absurd rfl ht1

theorem evalLoop_no_outOfFuel :
    ∀ (fuel : Nat) (rules : List Rule) (f : Facts) (g : List Rule),
      countUnknown rules f < fuel →
      evalLoop fuel rules f g ≠ .error .outOfFuel := by
  intro fuel
  induction fuel with
  | zero =>
    intro rules f g hcnt
    exact absurd hcnt (by omega)
  | succ n ih =>
    intro rules f g hcnt
    unfold evalLoop
    cases hp : onePass rules f g with
    | none => simp
    | some out =>
      obtain ⟨f1, g1, changed⟩ := out
      cases changed with
      | false => simp
      | true =>
        have hdec : countUnknown rules f1 < countUnknown rules f :=
          onePass_decrease hp
        have : countUnknown rules f1 < n := by omega
        simpa using ih rules f1 g1 this

theorem evalLoop_evolve :
    ∀ (fuel : Nat) (rules : List Rule) (f : Facts) (g : List Rule)
      (f1 : Facts) (g1 : List Rule),
      evalLoop fuel rules f g = .ok (f1, g1) → factsEvolve f f1 := by
  intro fuel
  induction fuel with
  | zero =>
    intro rules f g f1 g1 h
    exact absurd h (by simp [evalLoop])
  | succ n ih =>
    intro rules f g f1 g1 h
    unfold evalLoop at h
    cases hp : onePass rules f g with
    | none => rw [hp] at h; exact absurd h (by simp)
    | some out =>
      obtain ⟨f2, g2, changed⟩ := out
      rw [hp] at h
      cases changed with
      | false =>
        simp only [if_false, Bool.false_eq_true, Except.ok.injEq,
          Prod.mk.injEq] at h
        exact h.1 ▸ onePassAux_evolve _ _ _ _ _ _ _ hp
      | true =>
        simp only [if_true] at h
        exact factsEvolve_trans (onePassAux_evolve _ _ _ _ _ _ _ hp)
          (ih rules f2 g2 f1 g1 h)

theorem evalLoop_goals :
    ∀ (fuel : Nat) (rules : List Rule) (f : Facts) (g : List Rule)
      (f1 : Facts) (g1 : List Rule),
      evalLoop fuel rules f g = .ok (f1, g1) →
      ∀ r1 ∈ g1, r1 ∈ g ∨ r1.is_negated = false := by
  intro fuel
  induction fuel with
  | zero =>
    intro rules f g f1 g1 h
    exact absurd h (by simp [evalLoop])
  | succ n ih =>
    intro rules f g f1 g1 h r1 hr1
    unfold evalLoop at h
    cases hp : onePass rules f g with
    | none => rw [hp] at h; exact absurd h (by simp)
    | some out =>
      obtain ⟨f2, g2, changed⟩ := out
      rw [hp] at h
      cases changed with
      | false =>
        simp only [if_false, Bool.false_eq_true, Except.ok.injEq,
          Prod.mk.injEq] at h
        exact onePassAux_goals _ _ _ _ _ _ _ hp r1 (h.2 ▸ hr1)
      | true =>
        simp only [if_true] at h
        rcases ih rules f2 g2 f1 g1 h r1 hr1 with hm | hneg
        · exact onePassAux_goals _ _ _ _ _ _ _ hp r1 hm
        · exact Or.inr hneg

theorem setExternalFact_evolve (f : Facts) (n : String) (v : Truth) :
    factsEvolve f (setExternalFact f n v) := by
  unfold setExternalFact
  split
  · rename_i hu
    exact factsEvolve_setFact_unknown v hu
  · exact factsEvolve_refl f

theorem runOps_evolve :
    ∀ (ops : List EngineOp) (rules : List Rule) (st : Facts × List Rule)
      (f1 : Facts) (g1 : List Rule),
      runOps rules ops st = some (f1, g1) → factsEvolve st.1 f1 := by
  intro ops
  induction ops with
  | nil =>
    intro rules st f1 g1 h
    simp only [runOps, Option.some.injEq] at h
    subst h
    exact factsEvolve_refl f1
  | cons op rest ih =>
    intro rules st f1 g1 h
    unfold runOps at h
    cases hap : applyOp rules st op with
    | none => rw [hap] at h; exact absurd h (by simp)
    | some st1 =>
      rw [hap] at h
      have htail : factsEvolve st1.1 f1 := ih rules st1 f1 g1 h
      cases op with
      | setExternal n v =>
        simp only [applyOp, Option.some.injEq] at hap
        have : st1.1 = setExternalFact st.1 n v := by rw [← hap]
        rw [this] at htail
        exact factsEvolve_trans (setExternalFact_evolve st.1 n v) htail
      | runRules =>
        simp only [applyOp] at hap
        cases hr : runFixedPoint rules st.1 st.2 with
        | error e => rw [hr] at hap; exact absurd hap (by simp [Except.toOption])
        | ok out =>
          rw [hr] at hap
          simp only [Except.toOption, Option.some.injEq] at hap
          obtain ⟨f2, g2⟩ := out
          have hev : factsEvolve st.1 f2 :=
            evalLoop_evolve _ rules st.1 st.2 f2 g2 hr
          rw [← hap] at htail
          exact factsEvolve_trans hev htail

theorem runOps_goals :
    ∀ (ops : List EngineOp) (rules : List Rule) (st : Facts × List Rule)
      (f1 : Facts) (g1 : List Rule),
      runOps rules ops st = some (f1, g1) →
      ∀ r1 ∈ g1, r1 ∈ st.2 ∨ r1.is_negated = false := by
  intro ops
  induction ops with
  | nil =>
    intro rules st f1 g1 h r1 hr1
    simp only [runOps, Option.some.injEq] at h
    subst h
    exact Or.inl hr1
  | cons op rest ih =>
    intro rules st f1 g1 h r1 hr1
    unfold runOps at h
    cases hap : applyOp rules st op with
    | none => rw [hap] at h; exact absurd h (by simp)
    | some st1 =>
      rw [hap] at h
      rcases ih rules st1 f1 g1 h r1 hr1 with hm | hneg
      · cases op with
        | setExternal n v =>
          simp only [applyOp, Option.some.injEq] at hap
          have : st1.2 = st.2 := by rw [← hap]
          exact Or.inl (this ▸ hm)
        | runRules =>
          simp only [applyOp] at hap
          cases hr : runFixedPoint rules st.1 st.2 with
          | error e =>
            rw [hr] at hap; exact absurd hap (by simp [Except.toOption])
          | ok out =>
            rw [hr] at hap
            simp only [Except.toOption, Option.some.injEq] at hap
            obtain ⟨f2, g2⟩ := out
            have : st1.2 = g2 := by rw [← hap]
            rw [this] at hm
            exact evalLoop_goals _ rules st.1 st.2 f2 g2 hr r1 hm
      · exact Or.inr hneg

/-- C1 (counterexample): parsing `"a & b | c"` does NOT produce the
left-associative grouping `(a & b) | c` claimed by the spec — the
decision procedure evaluates the parse and finds a different tree, so the
claimed equality is false. -/
theorem parse_and_or_not_left_grouped :
    decide (parse "a & b | c" =
      Except.ok (BoolExpr.OR
        (BoolExpr.AND (BoolExpr.FACT "a") (BoolExpr.FACT "b"))
        (BoolExpr.FACT "c"))) = false := by rfl

/-- C1 (amended): when several operators tie at the lowest precedence at
parenthesis depth 0, the expression splits at the leftmost of them, but that
leftmost operator becomes the ROOT of the tree, so tied chains nest to the
right: `"a & b | c"` parses as `AND(FACT "a", OR(FACT "b", FACT "c"))`,
i.e. `a & (b | c)`, and likewise `"a | b & c"` as `a | (b & c)` and
`"a | b | c"` as `a | (b | c)`. -/
theorem parse_and_or_leftmost_is_root :
    parse "a & b | c" =
      Except.ok (BoolExpr.AND (BoolExpr.FACT "a")
        (BoolExpr.OR (BoolExpr.FACT "b") (BoolExpr.FACT "c"))) ∧
    parse "a | b & c" =
      Except.ok (BoolExpr.OR (BoolExpr.FACT "a")
        (BoolExpr.AND (BoolExpr.FACT "b") (BoolExpr.FACT "c"))) ∧
    parse "a | b | c" =
      Except.ok (BoolExpr.OR (BoolExpr.FACT "a")
        (BoolExpr.OR (BoolExpr.FACT "b") (BoolExpr.FACT "c"))) :=
  ⟨rfl, rfl, rfl⟩

/-- C2: monotonicity of the fact table. For any rule set and any interleaving
of external fact-setting (`setExternalFact`, which only writes entries that
are currently `UNKNOWN`) with runs of the fixed-point loop, once a fact's
entry has a value other than `UNKNOWN`, no subsequent operation ever changes
that entry again. -/
theorem facts_monotone_over_ops (rules : List Rule) (ops : List EngineOp)
    (f f1 : Facts) (g g1 : List Rule) (k : String) (v : Truth)
    (h : runOps rules ops (f, g) = some (f1, g1))
    (hv : lookupFact f k = some v) (hne : v ≠ Truth.UNKNOWN) :
    lookupFact f1 k = some v := by
  have hev : factsEvolve f f1 := runOps_evolve ops rules (f, g) f1 g1 h
  rcases hev k with hsame | ⟨hu, t1, ht1, hl1⟩
  · exact hsame.trans hv
  · rw [hv] at hu
    exact absurd (Option.some_injective _ hu) hne

theorem facts_monotone_over_ops_witness :
    runOps [] [EngineOp.runRules] ([("x", Truth.TRUE)], []) =
      some ([("x", Truth.TRUE)], []) ∧
    lookupFact [("x", Truth.TRUE)] "x" = some Truth.TRUE ∧
    Truth.TRUE ≠ Truth.UNKNOWN ∧
    lookupFact [("x", Truth.TRUE)] "x" = some Truth.TRUE :=
  ⟨by decide, by decide, by decide,
    facts_monotone_over_ops [] [EngineOp.runRules] [("x", Truth.TRUE)]
      [("x", Truth.TRUE)] [] [] "x" Truth.TRUE (by decide) (by decide)
      (by decide)⟩

/-- C3: the fixed-point loop terminates on every input within
`rules.length + 1` passes — run with that pass budget it never exhausts the
budget: it either stops at a missing fact name (the `KeyError` the source
would raise) or completes normally, because each changing pass strictly
decreases the number of rules whose consequent is `UNKNOWN`, and that number
is at most the number of rules. -/
theorem evalLoop_pass_bound (rules : List Rule) (f : Facts) (g : List Rule) :
    evalLoop (rules.length + 1) rules f g = .error .keyMissing ∨
    ∃ out, evalLoop (rules.length + 1) rules f g = .ok out := by
  cases hres : evalLoop (rules.length + 1) rules f g with
  | ok out => exact Or.inr ⟨out, rfl⟩
  | error e =>
    cases e with
    | keyMissing => exact Or.inl rfl
    | outOfFuel =>
      have hcnt : countUnknown rules f < rules.length + 1 := by
        unfold countUnknown
        exact Nat.lt_succ_of_le (List.countP_le_length _)
      exact absurd hres (evalLoop_no_outOfFuel _ rules f g hcnt)

/-- C4: `evalExpr` implements the strong Kleene three-valued connectives:
whenever the children evaluate to `t1`, `t2` (resp. `t`), an `AND` node
evaluates to the Kleene conjunction, an `OR` node to the Kleene disjunction,
a `NOT` node to the Kleene negation and a `PAREN` node to the child's value
unchanged — and the Kleene tables have exactly the claimed characterisation
(`AND` is `TRUE` iff both `TRUE`, `FALSE` iff at least one `FALSE`, so
`AND(FALSE, UNKNOWN) = FALSE`; `OR` dually; `NOT` swaps `TRUE`/`FALSE` and
fixes `UNKNOWN`). Both operands appear as hypotheses because the source
always evaluates both (no short-circuiting). -/
theorem evalExpr_kleene (f : Facts) (l r e : BoolExpr) (t1 t2 t : Truth)
    (h1 : evalExpr l f = some t1) (h2 : evalExpr r f = some t2)
    (h : evalExpr e f = some t) :
    evalExpr (.AND l r) f = some (kleeneAnd t1 t2) ∧
    evalExpr (.OR l r) f = some (kleeneOr t1 t2) ∧
    evalExpr (.NOT e) f = some (kleeneNeg t) ∧
    evalExpr (.PAREN e) f = some t ∧
    (kleeneAnd t1 t2 = Truth.TRUE ↔ (t1 = Truth.TRUE ∧ t2 = Truth.TRUE)) ∧
    (kleeneAnd t1 t2 = Truth.FALSE ↔ (t1 = Truth.FALSE ∨ t2 = Truth.FALSE)) ∧
    (kleeneOr t1 t2 = Truth.TRUE ↔ (t1 = Truth.TRUE ∨ t2 = Truth.TRUE)) ∧
    (kleeneOr t1 t2 = Truth.FALSE ↔ (t1 = Truth.FALSE ∧ t2 = Truth.FALSE)) ∧
    kleeneNeg Truth.TRUE = Truth.FALSE ∧
    kleeneNeg Truth.FALSE = Truth.TRUE ∧
    kleeneNeg Truth.UNKNOWN = Truth.UNKNOWN := by
  refine ⟨?_, ?_, ?_, ?_, ?_, ?_, ?_, ?_, rfl, rfl, rfl⟩
  · simp only [evalExpr, h1, h2]
    cases t1 <;> cases t2 <;> rfl
  · simp only [evalExpr, h1, h2]
    cases t1 <;> cases t2 <;> rfl
  · simp only [evalExpr, h]
    cases t <;> rfl
  · simp only [evalExpr]
    exact h
  · cases t1 <;> cases t2 <;> decide
  · cases t1 <;> cases t2 <;> decide
  · cases t1 <;> cases t2 <;> decide
  · cases t1 <;> cases t2 <;> decide

theorem evalExpr_kleene_witness :
    evalExpr (BoolExpr.FACT "x") [("x", Truth.TRUE)] = some Truth.TRUE ∧
    evalExpr (BoolExpr.AND (BoolExpr.FACT "x") (BoolExpr.FACT "x"))
      [("x", Truth.TRUE)] = some (kleeneAnd Truth.TRUE Truth.TRUE) :=
  ⟨rfl,
    (evalExpr_kleene [("x", Truth.TRUE)] (BoolExpr.FACT "x")
      (BoolExpr.FACT "x") (BoolExpr.FACT "x") Truth.TRUE Truth.TRUE
      Truth.TRUE rfl rfl rfl).1⟩

/-- C5: frame property of `Rule.evaluate`. A successful call changes at most
the single fact-table entry of the rule's own consequent (all other keys read
the same before and after); it returns exactly the consequent's entry as of
return; and it changes the table only in the one case where the consequent
was `UNKNOWN` and the antecedent evaluated `TRUE` (writing `FALSE` when the
rule is negated, else `TRUE`) — in every other case (consequent already
resolved, or antecedent not evaluating to `TRUE`) the table is returned
unchanged and the result is the consequent's current value, `UNKNOWN` when
unresolved. -/
theorem ruleEvaluate_frame (r : Rule) (f : Facts) (t : Truth) (f1 : Facts)
    (h : ruleEvaluate r f = some (t, f1)) :
    (∀ k, k ≠ r.consequent → lookupFact f1 k = lookupFact f k) ∧
    lookupFact f1 r.consequent = some t ∧
    ((∃ c, lookupFact f r.consequent = some c ∧ c ≠ Truth.UNKNOWN ∧
        f1 = f ∧ t = c) ∨
     (lookupFact f r.consequent = some Truth.UNKNOWN ∧ f1 = f ∧
        t = Truth.UNKNOWN ∧
        (r.antecedent_truth ≠ Truth.UNKNOWN ∨
          ∃ u, evalExpr r.antecedent f = some u ∧ u ≠ Truth.TRUE)) ∨
     (lookupFact f r.consequent = some Truth.UNKNOWN ∧
        r.antecedent_truth = Truth.UNKNOWN ∧
        evalExpr r.antecedent f = some Truth.TRUE ∧
        t = (if r.is_negated then Truth.FALSE else Truth.TRUE) ∧
        f1 = setFact f r.consequent t)) := by
  refine ⟨?_, ruleEvaluate_post h, ?_⟩
  · intro k hk
    rcases ruleEvaluate_cases h with ⟨_, _, hf⟩ | ⟨_, _, hf, _⟩ |
      ⟨_, _, _, _, hf⟩
    · rw [hf]
    · rw [hf]
    · rw [hf, lookupFact_setFact_ne f r.consequent k t hk]
  · rcases ruleEvaluate_cases h with ⟨hl, hne, hf⟩ | ⟨hl, ht, hf, halt⟩ |
      ⟨hl, hat, he, ht, hf⟩
    · exact Or.inl ⟨t, hl, hne, hf, rfl⟩
    · exact Or.inr (Or.inl ⟨hl, hf, ht, halt⟩)
    · exact Or.inr (Or.inr ⟨hl, hat, he, ht, hf⟩)

theorem ruleEvaluate_frame_witness :
    ruleEvaluate
        { antecedent := BoolExpr.FACT "a", consequent := "b",
          is_negated := false, is_goal := false,
          antecedent_truth := Truth.UNKNOWN }
        [("a", Truth.TRUE), ("b", Truth.UNKNOWN)] =
      some (Truth.TRUE, [("a", Truth.TRUE), ("b", Truth.TRUE)]) ∧
    lookupFact [("a", Truth.TRUE), ("b", Truth.TRUE)] "b" = some Truth.TRUE :=
  ⟨by decide,
    (ruleEvaluate_frame
      { antecedent := BoolExpr.FACT "a", consequent := "b",
        is_negated := false, is_goal := false,
        antecedent_truth := Truth.UNKNOWN }
      [("a", Truth.TRUE), ("b", Truth.UNKNOWN)] Truth.TRUE
      [("a", Truth.TRUE), ("b", Truth.TRUE)] (by decide)).2.1⟩

/-- C6 (counterexample): evaluating a `FACT` node whose name is absent from
the fact table does NOT return `UNKNOWN` — the source reads `facts[name]`,
which raises `KeyError` (modelled as `none`), so the claimed equality is
false at the empty table. -/
theorem evalExpr_fact_missing_not_unknown :
    decide (evalExpr (BoolExpr.FACT "a") [] = some Truth.UNKNOWN) = false :=
  by rfl

/-- C6 (amended): evaluating a `FACT` node whose fact name is absent from the
fact table propagates the lookup failure (`KeyError` in the source, `none` in
the embedding); it does not produce any `Truth` value, in particular not
`UNKNOWN`. -/
theorem evalExpr_fact_missing_none (f : Facts) (n : String)
    (h : lookupFact f n = none) : evalExpr (BoolExpr.FACT n) f = none := by
  simp only [evalExpr]
  exact h

theorem evalExpr_fact_missing_none_witness :
    lookupFact [] "a" = none ∧ evalExpr (BoolExpr.FACT "a") [] = none :=
  ⟨rfl, evalExpr_fact_missing_none [] "a" rfl⟩

/-- C7: fixed-point propagation across dependent rules in one call. With the
rule set `["has fur -> mammal", "mammal -> !reptile"]` loaded and the
external fact `"has fur"` set to `TRUE`, a single run of the fixed-point
loop leaves the fact table with `mammal = TRUE` and `reptile = FALSE`, with
no further external input. -/
theorem fixed_point_chain_example :
    (do
      let rules ← mkRules ["has fur -> mammal", "mammal -> !reptile"]
      let f0 := loadFacts rules
      let f1 := setExternalFact f0 "has fur" Truth.TRUE
      match runFixedPoint rules f1 [] with
      | .ok (f2, _) => some (lookupFact f2 "mammal", lookupFact f2 "reptile")
      | .error _ => none)
    = some (some Truth.TRUE, some Truth.FALSE) := by rfl

/-- C8 (counterexample): the parser does not reject ONLY unbalanced
parentheses — the balanced string `"()"` is also rejected (the source hits
`expression[0]` on the empty inner expression, an `IndexError`), so the
"and only those" part of the claim is false. -/
theorem parse_empty_parens_rejected :
    parse "()" = Except.error ParseErr.empty := by rfl

/-- C8 (amended): the parser rejects unbalanced parentheses as described —
a `)` at depth 0 with no matching `(` fails with a syntax error identifying
the offending position (`"a)"` fails at position 1), a string whose scan
ends with unmatched `(` fails with an unclosed-parenthesis error (`"(a"`),
and `"(a)"` succeeds as `PAREN(FACT "a")` — but these are not the only
rejections: empty (sub)expressions also fail. -/
theorem parse_paren_errors :
    parse "a)" = Except.error (ParseErr.extraClose 1) ∧
    parse "(a" = Except.error ParseErr.unclosed ∧
    parse "(a)" = Except.ok (BoolExpr.PAREN (BoolExpr.FACT "a")) :=
  ⟨rfl, rfl, rfl⟩

/-- C10: a rule whose negated flag is set never appears in the goals-reached
log. Starting from an empty goal log, after any interleaving of external
fact-setting and fixed-point runs, every rule in the goal log has
`is_negated = false`: resolving a negated rule writes `FALSE`, and only
rules whose evaluation returned `TRUE` are appended to `goals_reached`. -/
theorem negated_rule_never_goal (rules : List Rule) (ops : List EngineOp)
    (f : Facts) (f1 : Facts) (g1 : List Rule)
    (h : runOps rules ops (f, []) = some (f1, g1)) :
    (g1.all fun r1 => !r1.is_negated) = true := by
  rw [List.all_eq_true]
  intro r1 hr1
  rcases runOps_goals ops rules (f, []) f1 g1 h r1 hr1 with hm | hneg
  · exact absurd hm (List.not_mem_nil r1)
  · show (!r1.is_negated) = true
    rw [hneg]
    rfl

theorem negated_rule_never_goal_witness :
    runOps
        [{ antecedent := BoolExpr.FACT "a", consequent := "b",
           is_negated := true, is_goal := true,
           antecedent_truth := Truth.UNKNOWN }]
        [EngineOp.setExternal "a" Truth.TRUE, EngineOp.runRules]
        ([("a", Truth.UNKNOWN), ("b", Truth.UNKNOWN)], []) =
      some ([("a", Truth.TRUE), ("b", Truth.FALSE)], []) ∧
    (([] : List Rule).all fun r1 => !r1.is_negated) = true :=
  ⟨by decide,
    negated_rule_never_goal
      [{ antecedent := BoolExpr.FACT "a", consequent := "b",
         is_negated := true, is_goal := true,
         antecedent_truth := Truth.UNKNOWN }]
      [EngineOp.setExternal "a" Truth.TRUE, EngineOp.runRules]
      [("a", Truth.UNKNOWN), ("b", Truth.UNKNOWN)]
      [("a", Truth.TRUE), ("b", Truth.FALSE)] [] (by decide)⟩
